import Mathlib

/-!
# Verification of the history-scanning core (`src/historyScanner.ts`)

A shallow embedding of the history scanner: the path codec (`decodePath`,
`extractProjectName`), the snapshot-folder reader (per-entry filtering), the
index builder (`scanAllFiles` as a fold over the observed folders), and the
cache/query layer (`getProjects`, `getFilesForProject`, `getFileVersions`,
`clearCache`).

Conventions of the embedding:
* JavaScript exceptions are modelled with `Option`: `none` is a thrown error
  at the point where the source may throw (`decodeURIComponent` throwing
  `URIError`, `JSON.parse` failing, `fs.readdirSync` failing).
* JavaScript `Map` objects are insertion-ordered association lists
  (`mapGet`/`mapSet` below mirror `Map.prototype.get`/`set`).
* Timestamps are the manifest's numeric epoch values as `Int`
  (`new Date(n).getTime()` round-trips an integral epoch value).
* `Array.prototype.sort` with comparator `(a, b) => b.timestamp - a.timestamp`
  is a stable descending sort; a stable sort for a total preorder is unique,
  so it is modelled by `List.insertionSort` with the matching relation.
* All definitions are structural so that concrete runs reduce in the kernel.
-/

namespace VibeCheck

/-! ## Path codec: `decodeURIComponent` model -/

/-- Value of a hexadecimal digit character, `none` for a non-hex character
(48-57 are `0`-`9`, 65-70 are `A`-`F`, 97-102 are `a`-`f`). -/
def hexDigitVal (c : Char) : Option Nat :=
  if 48 ≤ c.toNat ∧ c.toNat ≤ 57 then some (c.toNat - 48)
  else if 65 ≤ c.toNat ∧ c.toNat ≤ 70 then some (c.toNat - 55)
  else if 97 ≤ c.toNat ∧ c.toNat ≤ 102 then some (c.toNat - 87)
  else none

/-- Tokenize a percent-encoded character sequence: each `%HH` escape becomes a
byte (`Sum.inl`), every other character passes through (`Sum.inr`). `none`
models the `URIError` JavaScript's `decodeURIComponent` throws on a malformed
escape (a `%` not followed by two hex digits). -/
def pctTokens : List Char → Option (List (Sum Nat Char))
  | [] => some []
  | c :: rest =>
    if c = '%' then
      match rest with
      | h :: l :: rest2 =>
        match hexDigitVal h, hexDigitVal l, pctTokens rest2 with
        | some hi, some lo, some ts => some (Sum.inl (16 * hi + lo) :: ts)
        | _, _, _ => none
      | _ => none
    else
      match pctTokens rest with
      | some ts => some (Sum.inr c :: ts)
      | none => none

/-- Decode the token stream, validating escape bytes as UTF-8 (as
`decodeURIComponent` does); `none` models a thrown `URIError` (truncated or
ill-formed byte sequence, overlong encoding, surrogate or out-of-range code
point). -/
def decodeTokens : List (Sum Nat Char) → Option (List Char)
  | [] => some []
  | Sum.inr c :: rest =>
    match decodeTokens rest with
    | some cs => some (c :: cs)
    | none => none
  | Sum.inl b :: rest =>
    if b < 0x80 then
      match decodeTokens rest with
      | some cs => some (Char.ofNat b :: cs)
      | none => none
    else if 0xC2 ≤ b ∧ b ≤ 0xDF then
      match rest with
      | Sum.inl b2 :: rest2 =>
        if 0x80 ≤ b2 ∧ b2 ≤ 0xBF then
          match decodeTokens rest2 with
          | some cs => some (Char.ofNat ((b - 0xC0) * 0x40 + (b2 - 0x80)) :: cs)
          | none => none
        else none
      | _ => none
    else if 0xE0 ≤ b ∧ b ≤ 0xEF then
      match rest with
      | Sum.inl b2 :: Sum.inl b3 :: rest2 =>
        if 0x80 ≤ b2 ∧ b2 ≤ 0xBF ∧ 0x80 ≤ b3 ∧ b3 ≤ 0xBF then
          let cp := (b - 0xE0) * 0x1000 + (b2 - 0x80) * 0x40 + (b3 - 0x80)
          if 0x800 ≤ cp ∧ ¬(0xD800 ≤ cp ∧ cp ≤ 0xDFFF) then
            match decodeTokens rest2 with
            | some cs => some (Char.ofNat cp :: cs)
            | none => none
          else none
        else none
      | _ => none
    else if 0xF0 ≤ b ∧ b ≤ 0xF4 then
      match rest with
      | Sum.inl b2 :: Sum.inl b3 :: Sum.inl b4 :: rest2 =>
        if 0x80 ≤ b2 ∧ b2 ≤ 0xBF ∧ 0x80 ≤ b3 ∧ b3 ≤ 0xBF ∧ 0x80 ≤ b4 ∧ b4 ≤ 0xBF then
          let cp := (b - 0xF0) * 0x40000 + (b2 - 0x80) * 0x1000 + (b3 - 0x80) * 0x40 + (b4 - 0x80)
          if 0x10000 ≤ cp ∧ cp ≤ 0x10FFFF then
            match decodeTokens rest2 with
            | some cs => some (Char.ofNat cp :: cs)
            | none => none
          else none
        else none
      | _ => none
    else none

/-- Model of JavaScript's `decodeURIComponent`; `none` models a thrown
`URIError`. -/
def decodeURIComponent (s : String) : Option String :=
  match pctTokens s.toList with
  | none => none
  | some ts =>
    match decodeTokens ts with
    | some cs => some (String.mk cs)
    | none => none

/-- JavaScript `String.prototype.replace` with a string pattern and empty
replacement: removes the first occurrence of `pat` (the source replaces
`'file:///'` with `''`). -/
def removeFirst (pat : List Char) : List Char → List Char
  | [] => []
  | c :: rest =>
    if pat.isPrefixOf (c :: rest) then (c :: rest).drop pat.length
    else c :: removeFirst pat rest

/-- `HistoryScanner.decodePath` (lines 252-264): strips the first `file:///`,
percent-decodes the remainder, and on win32 converts forward slashes to
backslashes and upper-cases a leading drive letter. `none` models the
`URIError` thrown by `decodeURIComponent` on malformed input. -/
def decodePath (win32 : Bool) (resourcePath : String) : Option String :=
  match decodeURIComponent (String.mk (removeFirst "file:///".toList resourcePath.toList)) with
  | none => none
  | some s =>
    if win32 then
      let cs := s.toList.map (fun c => if c = '/' then '\\' else c)
      if cs.length > 2 ∧ cs[1]? = some ':' then
        match cs with
        | c0 :: rest => some (String.mk (c0.toUpper :: rest))
        | [] => some (String.mk cs)
      else some (String.mk cs)
    else some s

/-! ## Path codec: `extractProjectName` -/

/-- Split a character list on a separator character, JavaScript
`String.prototype.split` style (keeps empty segments). -/
def splitChars (sep : Char) : List Char → List (List Char)
  | [] => [[]]
  | c :: rest =>
    let r := splitChars sep rest
    if c = sep then [] :: r
    else
      match r with
      | [] => [[c]]
      | g :: gs => (c :: g) :: gs

/-- ASCII-wise lower-casing of a string, character by character (the source
applies `toLowerCase` to single path segments). -/
def lowerStr (s : String) : String := String.mk (s.toList.map Char.toLower)

/-- The fixed denylist `skipFolders` of `extractProjectName` (lines 272-275). -/
def skipFolders : List String :=
  ["users", "user", "home", "documents", "desktop",
   "downloads", "study", "projects", "code", "dev", "src"]

/-- The segment list `parts` of `extractProjectName` (line 270): backslashes
normalized to `/`, split on `/`, dropping empty segments and two-character
drive segments such as `c:`. -/
def pathParts (filePath : String) : List String :=
  (((splitChars '/' (filePath.toList.map (fun c => if c = '\\' then '/' else c))).map
      String.mk).filter
    (fun p => decide (p ≠ "" ∧ ¬(p.length = 2 ∧ p.toList[1]? = some ':'))))

/-- `HistoryScanner.extractProjectName` (lines 269-284): the first path segment
whose lower-casing is not in the denylist; if every segment is denylisted, the
second-to-last segment, or `"Unknown Project"` for fewer than two segments. -/
def extractProjectName (filePath : String) : String :=
  match (pathParts filePath).find? (fun p => !(skipFolders.contains (lowerStr p))) with
  | some p => p
  | none =>
    if h : 2 ≤ (pathParts filePath).length then
      (pathParts filePath).get ⟨(pathParts filePath).length - 2, by omega⟩
    else "Unknown Project"

example : extractProjectName "/Users/alice/Documents/myapp/src/main.py" = "alice" := by decide
example : decodePath false "file:///home/x/a.txt" = some "home/x/a.txt" := by decide
example : decodePath false "file:///%" = none := by decide
example : decodePath true "file:///c:/Users/bob%20x/proj/a.txt" = some "C:\\Users\\bob x\\proj\\a.txt" := by decide
example : extractProjectName "C:\\Users\\bob\\proj\\a.txt" = "bob" := by decide
example : extractProjectName "/home/src" = "home" := by decide
example : extractProjectName "src" = "Unknown Project" := by decide

/-! ## Data model -/

/-- `FileVersion`: one point-in-time snapshot. `timestamp` is the manifest's
numeric epoch value (`new Date(n).getTime()` round-trips it). -/
structure FileVersion where
  source : String
  timestamp : Int
  folderId : String
deriving Repr, DecidableEq

/-- `RecoverableFile`: a logical file with its version list. -/
structure RecoverableFile where
  originalPath : String
  versions : List FileVersion
  latestTimestamp : Int
deriving Repr, DecidableEq

/-- `Project`: a named grouping; `files` is a JavaScript `Map` modelled as an
insertion-ordered association list. -/
structure Project where
  name : String
  files : List (String × RecoverableFile)
deriving Repr, DecidableEq

/-- `Map.prototype.get`: the value at the key, if present. -/
def mapGet {β : Type} (m : List (String × β)) (k : String) : Option β :=
  match m with
  | [] => none
  | (k', v) :: rest => if k' = k then some v else mapGet rest k

/-- `Map.prototype.set`: update in place if the key exists, else append
(JavaScript `Map` preserves insertion order). -/
def mapSet {β : Type} (m : List (String × β)) (k : String) (v : β) : List (String × β) :=
  match m with
  | [] => [(k, v)]
  | (k', v') :: rest => if k' = k then (k, v) :: rest else (k', v') :: mapSet rest k v

/-! ## Observed on-disk state -/

/-- One `{id, timestamp}` manifest entry; `none` models an absent field, so the
JavaScript falsy test `!entry.id || !entry.timestamp` holds for an absent or
empty `id` and for an absent or zero `timestamp`. -/
structure ManifestEntry where
  id : Option String
  timestamp : Option Int
deriving Repr, DecidableEq

/-- A parsed `entries.json`: `resource` or `entries` may be absent. -/
structure Manifest where
  resource : Option String
  entries : Option (List ManifestEntry)
deriving Repr, DecidableEq

/-- One directory entry under the history root as the scan observes it.
`manifest = none` models a folder without `entries.json`; `some none` an
`entries.json` whose `JSON.parse` throws; `some (some m)` a parsed manifest.
`artifacts` maps an artifact id to its byte size; an id is present exactly
when `fs.existsSync` holds for it. -/
structure HistFolder where
  name : String
  isDir : Bool
  manifest : Option (Option Manifest)
  artifacts : List (String × Nat)
deriving Repr, DecidableEq

/-- The observable state under the history root: `rootExists` is
`fs.existsSync(historyPath)`; `folders = none` models `fs.readdirSync`
throwing on the root. -/
structure HistoryFS where
  rootExists : Bool
  folders : Option (List HistFolder)
deriving Repr, DecidableEq

/-- `path.join` of two segments with the platform separator. -/
def pjoin (win32 : Bool) (a b : String) : String :=
  a ++ (if win32 then "\\" else "/") ++ b

/-! ## Snapshot folder reader: per-entry filtering -/

/-- The per-entry filter of `scanAllFiles` (lines 136-157): skip on JavaScript
falsy `id` or `timestamp`, on a missing artifact, and on `size ≤ 1` unless
`showEmptyVersions`; otherwise build the `FileVersion`. -/
def entryVersion (win32 : Bool) (historyPath : String) (f : HistFolder)
    (showEmptyVersions : Bool) (e : ManifestEntry) : Option FileVersion :=
  match e.id, e.timestamp with
  | some eid, some ts =>
    if eid = "" ∨ ts = 0 then none
    else
      match mapGet f.artifacts eid with
      | none => none
      | some size =>
        if showEmptyVersions = false ∧ size ≤ 1 then none
        else some ⟨pjoin win32 (pjoin win32 historyPath f.name) eid, ts, f.name⟩
  | _, _ => none

/-- The surviving entries of a manifest's entry list, in manifest order
(the `versions` array before sorting). -/
def survivingVersions (win32 : Bool) (historyPath : String) (f : HistFolder)
    (showEmptyVersions : Bool) (entries : List ManifestEntry) : List FileVersion :=
  entries.filterMap (entryVersion win32 historyPath f showEmptyVersions)

/-- The sort relation of `versions.sort((a, b) => b.timestamp - a.timestamp)`:
`a` may precede `b` when `a`'s timestamp is at least `b`'s. -/
def tsGE (a b : FileVersion) : Prop := b.timestamp ≤ a.timestamp

instance : DecidableRel tsGE := fun a b => inferInstanceAs (Decidable (b.timestamp ≤ a.timestamp))

instance : IsTotal FileVersion tsGE := ⟨fun a b => le_total b.timestamp a.timestamp⟩

instance : IsTrans FileVersion tsGE := ⟨fun _ _ _ h1 h2 => le_trans h2 h1⟩

/-- The stable descending sort `versions.sort((a, b) => b.timestamp -
a.timestamp)`. JavaScript's `Array.prototype.sort` is stable, and the stable
sort for a total preorder is unique, so insertion sort computes it. -/
def sortVersionsDesc (vs : List FileVersion) : List FileVersion :=
  vs.insertionSort tsGE

/-- `versions[0].timestamp`; the source only reads index 0 of non-empty
lists. -/
def headTimestamp : List FileVersion → Int
  | [] => 0
  | v :: _ => v.timestamp

/-! ## History index builder -/

/-- Lines 124-130: create the project if the map lacks it. -/
def ensureProject (projects : List (String × Project)) (projectName : String) :
    List (String × Project) :=
  match mapGet projects projectName with
  | some _ => projects
  | none => mapSet projects projectName ⟨projectName, []⟩

/-- Lines 159-175 given a non-empty, already sorted version list: merge into an
existing `RecoverableFile` (append, re-sort, refresh `latestTimestamp`) or
create a fresh one. -/
def addToProject (projects : List (String × Project)) (projectName decodedPath : String)
    (sorted : List FileVersion) : List (String × Project) :=
  match mapGet projects projectName with
  | none => projects
  | some project =>
    match mapGet project.files decodedPath with
    | some existingFile =>
      mapSet projects projectName ⟨projectName,
        mapSet project.files decodedPath
          ⟨decodedPath, sortVersionsDesc (existingFile.versions ++ sorted),
           headTimestamp (sortVersionsDesc (existingFile.versions ++ sorted))⟩⟩
    | none =>
      mapSet projects projectName ⟨projectName,
        mapSet project.files decodedPath ⟨decodedPath, sorted, headTimestamp sorted⟩⟩

/-- The body of the per-folder loop of `scanAllFiles` (lines 100-181). Every
`continue` and the folder-level `catch` leave the accumulated map unchanged;
note the project is created *before* the entries are examined, so a folder
whose entries all drop out still leaves the created (possibly empty) project
behind, as does a manifest without an `entries` array (the `for ... of
undefined` throw is caught after the project was created). -/
def processFolder (win32 : Bool) (historyPath : String) (showEmptyVersions : Bool)
    (projects : List (String × Project)) (f : HistFolder) : List (String × Project) :=
  if f.isDir = false then projects
  else
    match f.manifest with
    | none => projects
    | some none => projects
    | some (some data) =>
      match data.resource with
      | none => projects
      | some resourcePath =>
        if resourcePath = "" then projects
        else
          match decodePath win32 resourcePath with
          | none => projects
          | some decodedPath =>
            match data.entries with
            | none => ensureProject projects (extractProjectName decodedPath)
            | some entries =>
              if survivingVersions win32 historyPath f showEmptyVersions entries = [] then
                ensureProject projects (extractProjectName decodedPath)
              else
                addToProject (ensureProject projects (extractProjectName decodedPath))
                  (extractProjectName decodedPath) decodedPath
                  (sortVersionsDesc (survivingVersions win32 historyPath f showEmptyVersions entries))

/-- `scanAllFiles` as a pure function of the observed filesystem (lines
90-188): an absent root or a failing `readdirSync` yields the empty map,
otherwise a left fold of `processFolder` over the folder listing. -/
def scanPure (win32 : Bool) (historyPath : String) (fs : HistoryFS)
    (showEmptyVersions : Bool) : List (String × Project) :=
  if fs.rootExists = false then []
  else
    match fs.folders with
    | none => []
    | some fl => fl.foldl (processFolder win32 historyPath showEmptyVersions) []

/-! ## Cache and query layer -/

/-- The mutable fields of a `HistoryScanner` together with the platform and the
observed (unchanging during one operation) filesystem. -/
structure ScannerState where
  win32 : Bool
  historyPath : String
  fs : HistoryFS
  cache : Option (List (String × Project))
deriving Repr, DecidableEq

/-- The method `scanAllFiles`: result map plus updated state. When the root
does not exist the method returns early and leaves the cache untouched
(lines 91-93); otherwise the freshly built map replaces the cache. -/
def scanAllFiles (s : ScannerState) (showEmptyVersions : Bool) :
    List (String × Project) × ScannerState :=
  if s.fs.rootExists = false then ([], s)
  else
    let m := scanPure s.win32 s.historyPath s.fs showEmptyVersions
    (m, ⟨s.win32, s.historyPath, s.fs, some m⟩)

/-- `getProjects` (lines 193-198): scan with defaults if the cache is `null`,
then the sorted key list (JavaScript's default lexicographic sort; stable,
hence insertion sort). -/
def getProjects (s : ScannerState) : List String × ScannerState :=
  let s1 := if s.cache = none then (scanAllFiles s false).2 else s
  match s1.cache with
  | some m => ((m.map Prod.fst).insertionSort (· ≤ ·), s1)
  | none => ([], s1)

/-- `getFilesForProject` (lines 203-208): scan with defaults if the cache is
`null`; an unknown name yields an empty map. -/
def getFilesForProject (s : ScannerState) (projectName : String) :
    List (String × RecoverableFile) × ScannerState :=
  let s1 := if s.cache = none then (scanAllFiles s false).2 else s
  match s1.cache with
  | none => ([], s1)
  | some m =>
    match mapGet m projectName with
    | none => ([], s1)
    | some project => (project.files, s1)

/-- `getFileVersions` (lines 213-216): an unknown project or path yields an
empty list. -/
def getFileVersions (s : ScannerState) (projectName filePath : String) :
    List FileVersion × ScannerState :=
  let r := getFilesForProject s projectName
  match mapGet r.1 filePath with
  | none => ([], r.2)
  | some f => (f.versions, r.2)

/-- `clearCache` (lines 245-247). -/
def clearCache (s : ScannerState) : ScannerState :=
  ⟨s.win32, s.historyPath, s.fs, none⟩

example :
    scanPure false "/hist"
      ⟨true, some [⟨"A", true, some (some ⟨some "file:///home/x/a.txt",
        some [⟨some "v1", some 100⟩, ⟨some "v2", some 200⟩]⟩), [("v1", 5), ("v2", 7)]⟩]⟩ false
    = [("x", ⟨"x", [("home/x/a.txt",
        ⟨"home/x/a.txt", [⟨"/hist/A/v2", 200, "A"⟩, ⟨"/hist/A/v1", 100, "A"⟩], 200⟩)]⟩)] := by
  decide

example :
    scanPure false "/hist"
      ⟨true, some [⟨"A", true, some (some ⟨some "file:///home/x/a.txt", some []⟩), []⟩]⟩ false
    = [("x", ⟨"x", []⟩)] := by decide

/-! ## Map lemmas -/

lemma mapGet_mapSet {β : Type} (m : List (String × β)) (k k' : String) (v : β) :
    mapGet (mapSet m k v) k' = if k' = k then some v else mapGet m k' := by
  induction m with
  | nil =>
    simp only [mapSet, mapGet]
    by_cases h : k' = k
    · subst h; simp
    · rw [if_neg (fun hh => h hh.symm), if_neg h]
  | cons a rest ih =>
    obtain ⟨ak, av⟩ := a
    simp only [mapSet]
    by_cases hak : ak = k
    · subst hak
      rw [if_pos rfl]
      simp only [mapGet]
      by_cases h : k' = ak
      · subst h; simp
      · rw [if_neg (fun hh => h hh.symm), if_neg h, if_neg (fun hh => h hh.symm)]
    · rw [if_neg hak]
      simp only [mapGet]
      by_cases h : ak = k'
      · subst h
        rw [if_pos rfl, if_pos rfl, if_neg (fun hh : ak = k => hak hh)]
      · rw [if_neg h, if_neg h, ih]

lemma mem_of_mapGet {β : Type} {m : List (String × β)} {k : String} {v : β}
    (h : mapGet m k = some v) : (k, v) ∈ m := by
  induction m with
  | nil => simp [mapGet] at h
  | cons a rest ih =>
    obtain ⟨ak, av⟩ := a
    by_cases hak : ak = k
    · subst hak
      simp [mapGet] at h
      simp [h]
    · simp [mapGet, hak] at h
      simp [ih h]

lemma mem_mapSet {β : Type} {m : List (String × β)} {k : String} {v : β} {e : String × β}
    (h : e ∈ mapSet m k v) : e ∈ m ∨ e = (k, v) := by
  induction m with
  | nil => simp [mapSet] at h; simp [h]
  | cons a rest ih =>
    obtain ⟨ak, av⟩ := a
    by_cases hak : ak = k
    · subst hak
      simp [mapSet] at h
      rcases h with h | h
      · right; simp [h]
      · left; simp [h]
    · simp [mapSet, hak] at h
      rcases h with h | h
      · left; simp [h]
      · rcases ih h with h' | h'
        · left; simp [h']
        · right; exact h'

/-! ## Sort lemmas -/

lemma sorted_sortVersionsDesc (vs : List FileVersion) :
    List.Sorted tsGE (sortVersionsDesc vs) :=
  List.sorted_insertionSort tsGE vs

lemma perm_sortVersionsDesc (vs : List FileVersion) :
    (sortVersionsDesc vs).Perm vs :=
  List.perm_insertionSort tsGE vs

lemma sortVersionsDesc_ne_nil {vs : List FileVersion} (h : vs ≠ []) :
    sortVersionsDesc vs ≠ [] := by
  intro hc
  apply h
  have := (perm_sortVersionsDesc vs).length_eq
  rw [hc] at this
  exact List.length_eq_zero.mp this.symm

/-- In a non-empty list sorted newest-first, the head's timestamp bounds every
timestamp and is attained. -/
lemma headTimestamp_max (l : List FileVersion) (hne : l ≠ [])
    (hs : List.Sorted tsGE l) :
    (∀ v ∈ l, v.timestamp ≤ headTimestamp l) ∧
    ∃ v ∈ l, v.timestamp = headTimestamp l := by
  cases l with
  | nil => exact absurd rfl hne
  | cons a t =>
    rw [List.sorted_cons] at hs
    constructor
    · intro v hv
      rcases List.mem_cons.mp hv with h | h
      · subst h; exact le_refl _
      · exact hs.1 v h
    · exact ⟨a, List.mem_cons_self a t, rfl⟩

/-! ## Builder lemmas -/

/-- `processFolder` on a folder that yields records: first ensure the project,
then merge the sorted surviving versions. -/
lemma processFolder_of_yields (w : Bool) (hp : String) (se : Bool)
    (P : List (String × Project)) (f : HistFolder) (d : Manifest) (r p : String)
    (es : List ManifestEntry)
    (hdir : f.isDir = true) (hman : f.manifest = some (some d))
    (hres : d.resource = some r) (hr : r ≠ "") (hdec : decodePath w r = some p)
    (hes : d.entries = some es) (hne : survivingVersions w hp f se es ≠ []) :
    processFolder w hp se P f =
      addToProject (ensureProject P (extractProjectName p)) (extractProjectName p) p
        (sortVersionsDesc (survivingVersions w hp f se es)) := by
  unfold processFolder
  simp [hdir, hman, hres, hr, hdec, hes, hne]

/-- The per-file invariant of C5: non-empty versions, sorted newest-first,
`latestTimestamp` equal to `versions[0].timestamp`. -/
def fileOk (file : RecoverableFile) : Prop :=
  file.versions ≠ [] ∧ List.Sorted tsGE file.versions ∧
    file.latestTimestamp = headTimestamp file.versions

/-- The index invariant: every file of every project satisfies `fileOk`. -/
def indexOk (m : List (String × Project)) : Prop :=
  ∀ e ∈ m, ∀ fe ∈ e.2.files, fileOk fe.2

lemma indexOk_nil : indexOk [] := by
  intro e he
  simp at he

lemma indexOk_ensureProject {P : List (String × Project)} (hP : indexOk P)
    (pn : String) : indexOk (ensureProject P pn) := by
  unfold ensureProject
  cases hg : mapGet P pn with
  | some _ => exact hP
  | none =>
    intro e he fe hfe
    rcases mem_mapSet he with h | h
    · exact hP e h fe hfe
    · subst h; simp at hfe

lemma indexOk_addToProject {P : List (String × Project)} (hP : indexOk P)
    (pn p : String) {sorted : List FileVersion}
    (hs : List.Sorted tsGE sorted) (hne : sorted ≠ []) :
    indexOk (addToProject P pn p sorted) := by
  unfold addToProject
  split
  · exact hP
  · rename_i project hg
    split
    · rename_i existingFile hgf
      intro e he fe hfe
      rcases mem_mapSet he with h | h
      · exact hP e h fe hfe
      · subst h
        simp only at hfe
        rcases mem_mapSet hfe with h' | h'
        · exact hP (pn, project) (mem_of_mapGet hg) fe h'
        · subst h'
          refine ⟨?_, sorted_sortVersionsDesc _, rfl⟩
          apply sortVersionsDesc_ne_nil
          intro hc
          exact hne (List.append_eq_nil.mp hc).2
    · rename_i hgf
      intro e he fe hfe
      rcases mem_mapSet he with h | h
      · exact hP e h fe hfe
      · subst h
        simp only at hfe
        rcases mem_mapSet hfe with h' | h'
        · exact hP (pn, project) (mem_of_mapGet hg) fe h'
        · subst h'
          exact ⟨hne, hs, rfl⟩

lemma indexOk_processFolder {P : List (String × Project)} (hP : indexOk P)
    (w : Bool) (hp : String) (se : Bool) (f : HistFolder) :
    indexOk (processFolder w hp se P f) := by
  unfold processFolder
  split
  · exact hP
  · split
    · exact hP
    · exact hP
    · split
      · exact hP
      · split
        · exact hP
        · split
          · exact hP
          · split
            · exact indexOk_ensureProject hP _
            · split
              · exact indexOk_ensureProject hP _
              · exact indexOk_addToProject (indexOk_ensureProject hP _) _ _
                  (sorted_sortVersionsDesc _)
                  (sortVersionsDesc_ne_nil (by assumption))

lemma indexOk_foldl (w : Bool) (hp : String) (se : Bool)
    (fl : List HistFolder) :
    ∀ P, indexOk P → indexOk (fl.foldl (processFolder w hp se) P) := by
  induction fl with
  | nil => intro P hP; exact hP
  | cons f rest ih =>
    intro P hP
    exact ih _ (indexOk_processFolder hP w hp se f)

/-! ## Decode lemmas -/

lemma pctTokens_no_pct (cs : List Char) (h : '%' ∉ cs) :
    pctTokens cs = some (cs.map Sum.inr) := by
  induction cs with
  | nil => rfl
  | cons c rest ih =>
    have hc : ¬ c = '%' := fun hh => h (hh ▸ List.mem_cons_self _ _)
    have hrest : '%' ∉ rest := fun hh => h (List.mem_cons_of_mem _ hh)
    unfold pctTokens
    rw [if_neg hc, ih hrest]
    rfl

lemma decodeTokens_map_inr (cs : List Char) :
    decodeTokens (cs.map Sum.inr) = some cs := by
  induction cs with
  | nil => rfl
  | cons c rest ih =>
    rw [List.map_cons]
    show (match decodeTokens (rest.map Sum.inr) with
          | some cs => some (c :: cs)
          | none => none) = some (c :: rest)
    rw [ih]

lemma mem_removeFirst {pat cs : List Char} {c : Char} (h : c ∈ removeFirst pat cs) :
    c ∈ cs := by
  induction cs with
  | nil => simp [removeFirst] at h
  | cons a rest ih =>
    unfold removeFirst at h
    split at h
    · exact List.drop_subset _ _ h
    · rcases List.mem_cons.mp h with h' | h'
      · exact h' ▸ List.mem_cons_self _ _
      · exact List.mem_cons_of_mem _ (ih h')

lemma decodeURIComponent_no_pct (s : String) (h : '%' ∉ s.toList) :
    decodeURIComponent s = some (String.mk s.toList) := by
  have h1 := pctTokens_no_pct s.toList h
  have h2 := decodeTokens_map_inr s.toList
  unfold decodeURIComponent
  rw [h1]
  show (match decodeTokens (s.toList.map Sum.inr) with
        | some cs => some (String.mk cs)
        | none => none) = some (String.mk s.toList)
  rw [h2]

lemma decodePath_isSome_iff (w : Bool) (r : String) :
    (decodePath w r).isSome
      = (decodeURIComponent (String.mk (removeFirst "file:///".toList r.toList))).isSome := by
  unfold decodePath
  cases hdec : decodeURIComponent (String.mk (removeFirst "file:///".toList r.toList)) with
  | none => rfl
  | some s =>
    cases w
    · rfl
    · dsimp only
      rw [if_pos rfl]
      split
      · cases hcs : s.toList.map (fun c => if c = '/' then '\\' else c) <;> rfl
      · rfl

/-! ## Claims -/

/-- C1, counterexample: on `/Users/alice/Documents/myapp/src/main.py` the code
returns `"alice"`, not `"myapp"`: the segment `alice` is not in the fixed
denylist and is scanned before `myapp`. -/
theorem C1_counterexample :
    extractProjectName "/Users/alice/Documents/myapp/src/main.py" ≠ "myapp" := by
  decide

/-- C1 (amended): `extractProjectName` on
`/Users/alice/Documents/myapp/src/main.py` returns `"alice"` — the first
segment not in the denylist (the user-profile segment `alice` is not
denylisted, so it wins over `myapp`); and on any path in which every segment
is denylisted it returns the second-to-last segment, or the literal string
`"Unknown Project"` when the path has fewer than two segments. -/
theorem C1_project_name :
    extractProjectName "/Users/alice/Documents/myapp/src/main.py" = "alice" ∧
    ∀ filePath : String,
      (∀ p ∈ pathParts filePath, skipFolders.contains (lowerStr p) = true) →
      extractProjectName filePath =
        if 2 ≤ (pathParts filePath).length then
          ((pathParts filePath)[(pathParts filePath).length - 2]?).getD "Unknown Project"
        else "Unknown Project" := by
  constructor
  · decide
  · intro filePath h
    have hfind :
        (pathParts filePath).find? (fun p => !(skipFolders.contains (lowerStr p))) = none := by
      rw [List.find?_eq_none]
      intro x hx
      simp only [h x hx]
      decide
    unfold extractProjectName
    rw [hfind]
    by_cases hlen : 2 ≤ (pathParts filePath).length
    · have hlt : (pathParts filePath).length - 2 < (pathParts filePath).length := by omega
      simp only [dif_pos hlen, if_pos hlen, List.getElem?_eq_getElem hlt, Option.getD_some]
      simp [List.get_eq_getElem]
    · simp only [dif_neg hlen, if_neg hlen]

/-- C1 witness: the amended fallback at the concrete all-denylisted path
`/home/src` (second-to-last segment `home`), next to the concrete first
claim. -/
theorem C1_witness :
    extractProjectName "/Users/alice/Documents/myapp/src/main.py" = "alice" ∧
    extractProjectName "/home/src" = "home" := by
  refine ⟨C1_project_name.1, ?_⟩
  have h := C1_project_name.2 "/home/src" (by decide)
  rw [h]
  decide

/-- C3, counterexample: on the malformed resource reference `file:///%` the
decode models a thrown `URIError` (`none`) rather than returning a string, so
`decodePath` does not return a best-effort string for every input. -/
theorem C3_counterexample : decodePath false "file:///%" = none := by decide

/-- C3 (amended): `decodePath` throws (`none`) on a malformed percent-encoding,
but the folder-level `catch` of `scanAllFiles` turns the throw into skipping
that folder, leaving the accumulated index unchanged — the scan itself never
aborts; and on any input free of `%` escapes the decode does return a
string. -/
theorem C3_decode_failure_skips_folder :
    (∀ (w : Bool) (hp : String) (se : Bool) (P : List (String × Project))
       (f : HistFolder) (d : Manifest) (r : String),
       f.manifest = some (some d) → d.resource = some r →
       decodePath w r = none → processFolder w hp se P f = P) ∧
    (∀ (w : Bool) (s : String), '%' ∉ s.toList → (decodePath w s).isSome = true) := by
  constructor
  · intro w hp se P f d r hman hres hdec
    unfold processFolder
    cases hd : f.isDir
    · simp
    · by_cases hr : r = "" <;> simp [hman, hres, hr, hdec]
  · intro w s h
    have h2 : '%' ∉ (String.mk (removeFirst "file:///".toList s.toList)).toList :=
      fun hc => h (mem_removeFirst hc)
    rw [decodePath_isSome_iff, decodeURIComponent_no_pct _ h2]
    rfl

/-- C3 witness: a folder with the malformed reference `file:///%` is skipped
(the empty index stays empty), and a well-formed `%`-free reference decodes. -/
theorem C3_witness :
    processFolder false "/hist" false []
      ⟨"B", true, some (some ⟨some "file:///%", some [⟨some "v", some 5⟩]⟩), [("v", 9)]⟩ = [] ∧
    (decodePath false "file:///home/ok.txt").isSome = true := by
  exact ⟨C3_decode_failure_skips_folder.1 false "/hist" false [] _ _ "file:///%" rfl rfl
      (by decide),
    C3_decode_failure_skips_folder.2 false "file:///home/ok.txt" (by decide)⟩

/-- C6: rebuilding from the same unchanged observed on-disk state produces a
structurally identical index — the map a scan returns equals the map a second
scan (after `clearCache`) returns, hence the same projects, the same files per
project and the same version lists in the same order. -/
theorem C6_rebuild_idempotent (s : ScannerState) (se : Bool) :
    (scanAllFiles (clearCache (scanAllFiles s se).2) se).1 = (scanAllFiles s se).1 := by
  cases hr : s.fs.rootExists <;> simp [scanAllFiles, clearCache, hr]

/-- C8: when the root enumeration fails — the history root is absent
(`rootExists = false`) or `readdirSync` throws (`folders = none`) — the build
returns an empty index; the embedding is a total function, so no error value
reaches the caller. -/
theorem C8_root_failure_empty_index (s : ScannerState) (se : Bool)
    (h : s.fs.rootExists = false ∨ s.fs.folders = none) :
    (scanAllFiles s se).1 = [] := by
  rcases h with h | h
  · simp [scanAllFiles, h]
  · cases hr : s.fs.rootExists
    · simp [scanAllFiles, hr]
    · simp [scanAllFiles, scanPure, hr, h]

/-- C8 witness: the two root-failure modes at concrete states. -/
theorem C8_witness :
    (scanAllFiles ⟨false, "/hist", ⟨false, some []⟩, none⟩ false).1 = [] ∧
    (scanAllFiles ⟨false, "/hist", ⟨true, none⟩, none⟩ false).1 = [] :=
  ⟨C8_root_failure_empty_index _ false (Or.inl rfl),
   C8_root_failure_empty_index _ false (Or.inr rfl)⟩

/-- C10: copy-on-rebuild. In the explicit-state embedding a mapping returned by
`getFilesForProject` is an immutable value, so no later `clearCache` plus
rebuild can change it; the substance of the claim is that a rebuild constructs
the new index from the observed filesystem alone and never from (or into) the
previously returned structures: two states that differ only in their cache —
in particular one still holding previously returned structures and one not —
rebuild to identical fresh indexes, and query identically after
`clearCache`. -/
theorem C10_rebuild_ignores_previous_structures (w : Bool) (hp : String)
    (fs : HistoryFS) (c1 c2 : Option (List (String × Project))) (se : Bool)
    (pn : String) :
    (scanAllFiles ⟨w, hp, fs, c1⟩ se).1 = (scanAllFiles ⟨w, hp, fs, c2⟩ se).1 ∧
    (getFilesForProject (clearCache ⟨w, hp, fs, c1⟩) pn).1
      = (getFilesForProject (clearCache ⟨w, hp, fs, c2⟩) pn).1 := by
  constructor
  · cases hr : fs.rootExists <;> simp [scanAllFiles, hr]
  · simp [clearCache]

/-! ## Query-layer lemmas and claims C9, C7, C2 -/

/-- The index a query consults: the cache when built, otherwise the scan the
query itself triggers (`scanAllFiles` with default arguments); an absent root
leaves the cache unset and the consulted index empty. -/
def effectiveIndex (s : ScannerState) : List (String × Project) :=
  match s.cache with
  | some m => m
  | none =>
    if s.fs.rootExists = false then []
    else scanPure s.win32 s.historyPath s.fs false

lemma getFilesForProject_eq (s : ScannerState) (pn : String) :
    (getFilesForProject s pn).1 =
      match mapGet (effectiveIndex s) pn with
      | none => []
      | some project => project.files := by
  obtain ⟨w, hp, fs, c⟩ := s
  cases c with
  | some m =>
    cases hm : mapGet m pn <;> simp [getFilesForProject, effectiveIndex, hm]
  | none =>
    cases hr : fs.rootExists with
    | false => simp [getFilesForProject, effectiveIndex, scanAllFiles, hr, mapGet]
    | true =>
      cases hm : mapGet (scanPure w hp fs false) pn <;>
        simp [getFilesForProject, effectiveIndex, scanAllFiles, hr, hm]

/-- C9: queries for unknown names return empty results, never an error (the
embedding is total): `getFilesForProject` on a project name absent from the
consulted index returns an empty mapping, and `getFileVersions` returns an
empty list both on an unknown project name and on an unknown file path within
a known project. -/
theorem C9_unknown_queries (s : ScannerState) (pn fp : String) :
    (mapGet (effectiveIndex s) pn = none → (getFilesForProject s pn).1 = []) ∧
    (mapGet (effectiveIndex s) pn = none → (getFileVersions s pn fp).1 = []) ∧
    (∀ project, mapGet (effectiveIndex s) pn = some project →
      mapGet project.files fp = none → (getFileVersions s pn fp).1 = []) := by
  refine ⟨?_, ?_, ?_⟩
  · intro h
    rw [getFilesForProject_eq, h]
  · intro h
    have h1 : (getFilesForProject s pn).1 = [] := by rw [getFilesForProject_eq, h]
    unfold getFileVersions
    dsimp only
    rw [h1]
    simp [mapGet]
  · intro project h1 h2
    have h3 : (getFilesForProject s pn).1 = project.files := by
      rw [getFilesForProject_eq, h1]
    unfold getFileVersions
    dsimp only
    rw [h3, h2]

/-- A concrete scanner state with a built cache, for the C9 witness. -/
def sampleState : ScannerState :=
  ⟨false, "/hist", ⟨true, some []⟩,
   some [("p", ⟨"p", [("f", ⟨"f", [⟨"/hist/A/v", 1, "A"⟩], 1⟩)]⟩)]⟩

/-- C9 witness: an unknown project name and an unknown file path at a concrete
cached state. -/
theorem C9_witness :
    (getFilesForProject sampleState "q").1 = [] ∧
    (getFileVersions sampleState "q" "f").1 = [] ∧
    (getFileVersions sampleState "p" "g").1 = [] := by
  refine ⟨(C9_unknown_queries sampleState "q" "f").1 (by decide),
    (C9_unknown_queries sampleState "q" "f").2.1 (by decide),
    (C9_unknown_queries sampleState "p" "g").2.2
      ⟨"p", [("f", ⟨"f", [⟨"/hist/A/v", 1, "A"⟩], 1⟩)]⟩ (by decide) (by decide)⟩

/-- C7, counterexample: an entry whose `id` is present (`"e1"`), whose
`timestamp` is present (`0`), and whose artifact exists with byte size 10
meets none of the claim's skip conditions, yet the JavaScript falsy test
`!entry.timestamp` drops it — it does not become a VersionRecord. -/
theorem C7_counterexample :
    entryVersion false "/hist" ⟨"fld", true, none, [("e1", 10)]⟩ false
      ⟨some "e1", some 0⟩ = none := by
  decide

/-- C7 (amended): an entry becomes a VersionRecord exactly when its `id` is
present and non-empty, its `timestamp` is present and non-zero (JavaScript
falsy checks, not mere absence), the referenced artifact exists, and either
`includeEmpty` is true or the artifact's byte size exceeds 1; in particular a
size-1 artifact with valid fields is excluded when `includeEmpty` is false and
included when it is true. -/
theorem C7_entry_filter :
    (∀ (w : Bool) (hp : String) (f : HistFolder) (se : Bool) (e : ManifestEntry),
      (entryVersion w hp f se e).isSome = true ↔
        ∃ eid ts sz, e.id = some eid ∧ e.timestamp = some ts ∧ eid ≠ "" ∧ ts ≠ 0 ∧
          mapGet f.artifacts eid = some sz ∧ (se = true ∨ 1 < sz)) ∧
    (∀ (w : Bool) (hp : String) (nm eid : String) (man : Option (Option Manifest))
       (ts : Int), eid ≠ "" → ts ≠ 0 →
      entryVersion w hp ⟨nm, true, man, [(eid, 1)]⟩ false ⟨some eid, some ts⟩ = none ∧
      (entryVersion w hp ⟨nm, true, man, [(eid, 1)]⟩ true ⟨some eid, some ts⟩).isSome = true) := by
  constructor
  · intro w hp f se e
    obtain ⟨oid, ots⟩ := e
    cases oid with
    | none => simp [entryVersion]
    | some eid =>
      cases ots with
      | none => simp [entryVersion]
      | some ts =>
        by_cases hid : eid = ""
        · simp [entryVersion, hid]
        · by_cases hts : ts = 0
          · simp [entryVersion, hid, hts]
          · cases hm : mapGet f.artifacts eid with
            | none => simp [entryVersion, hid, hts, hm]
            | some sz =>
              cases se with
              | true => simp [entryVersion, hid, hts, hm]
              | false =>
                by_cases hsz : sz ≤ 1
                · simp [entryVersion, hid, hts, hm, hsz]
                · simp [entryVersion, hid, hts, hm, hsz]
                  omega
  · intro w hp nm eid man ts hid hts
    constructor
    · simp [entryVersion, hid, hts, mapGet]
    · simp [entryVersion, hid, hts, mapGet]

/-- C7 witness: a size-1 artifact with present, truthy fields — dropped with
`includeEmpty = false`, kept with `includeEmpty = true`. -/
theorem C7_witness :
    entryVersion false "/hist" ⟨"A", true, none, [("v", 1)]⟩ false
      ⟨some "v", some 7⟩ = none ∧
    (entryVersion false "/hist" ⟨"A", true, none, [("v", 1)]⟩ true
      ⟨some "v", some 7⟩).isSome = true :=
  C7_entry_filter.2 false "/hist" "A" "v" none 7 (by decide) (by decide)

/-- C2, counterexample: a folder whose manifest parses with a valid resource
reference but zero surviving entries still contributes a Project: the built
index is `[("x", ⟨"x", ∅⟩)]` — a project originating from that folder, with no
RecoverableFile in it. This refutes both halves of the claim (no project from
such a folder; every project non-empty). -/
theorem C2_counterexample :
    scanPure false "/hist"
      ⟨true, some [⟨"A", true, some (some ⟨some "file:///home/x/a.txt", some []⟩), []⟩]⟩
      false
      = [("x", ⟨"x", []⟩)] := by decide

lemma mapGet_ensureProject_cases {P : List (String × Project)} {pn0 pn : String}
    {project : Project}
    (h : mapGet (ensureProject P pn0) pn = some project) :
    mapGet P pn = some project ∨ (mapGet P pn = none ∧ project = ⟨pn0, []⟩) := by
  unfold ensureProject at h
  cases hg : mapGet P pn0 with
  | some q => rw [hg] at h; exact Or.inl h
  | none =>
    rw [hg] at h
    rw [mapGet_mapSet] at h
    by_cases hpn : pn = pn0
    · rw [if_pos hpn] at h
      subst hpn
      refine Or.inr ⟨hg, ?_⟩
      exact (Option.some.injEq _ _ ▸ h).symm
    · rw [if_neg hpn] at h
      exact Or.inl h

/-- C2 (amended): a snapshot folder whose manifest read yields zero surviving
entries contributes no RecoverableFile: every project in the updated map keeps
exactly the files it had, and a project newly created while processing such a
folder is empty. (The claim as stated fails: the source creates the project
before examining the entries, so such a folder can contribute an empty
Project, and a built index can contain a project with no files.) -/
theorem C2_zero_survivors_no_file (w : Bool) (hp : String) (se : Bool)
    (P : List (String × Project)) (f : HistFolder)
    (hzero : ∀ d es, f.manifest = some (some d) → d.entries = some es →
      survivingVersions w hp f se es = []) :
    ∀ pn project, mapGet (processFolder w hp se P f) pn = some project →
      (∃ q, mapGet P pn = some q ∧ project.files = q.files) ∨
      (mapGet P pn = none ∧ project.files = []) := by
  intro pn project hget
  unfold processFolder at hget
  split at hget
  · exact Or.inl ⟨project, hget, rfl⟩
  · split at hget
    · exact Or.inl ⟨project, hget, rfl⟩
    · exact Or.inl ⟨project, hget, rfl⟩
    · split at hget
      · exact Or.inl ⟨project, hget, rfl⟩
      · split at hget
        · exact Or.inl ⟨project, hget, rfl⟩
        · split at hget
          · exact Or.inl ⟨project, hget, rfl⟩
          · split at hget
            · rcases mapGet_ensureProject_cases hget with h | ⟨ha, hb⟩
              · exact Or.inl ⟨project, h, rfl⟩
              · exact Or.inr ⟨ha, by rw [hb]⟩
            · split at hget
              · rcases mapGet_ensureProject_cases hget with h | ⟨ha, hb⟩
                · exact Or.inl ⟨project, h, rfl⟩
                · exact Or.inr ⟨ha, by rw [hb]⟩
              · exact absurd (hzero _ _ (by assumption) (by assumption)) (by assumption)

/-- C2 witness: the amended statement at the concrete zero-survivor folder of
the counterexample, over the empty accumulated map. -/
theorem C2_witness :
    (∃ q, mapGet ([] : List (String × Project)) "x" = some q ∧
        (Project.mk "x" []).files = q.files) ∨
    (mapGet ([] : List (String × Project)) "x" = none ∧
      (Project.mk "x" []).files = []) := by
  refine C2_zero_survivors_no_file false "/hist" false []
      ⟨"A", true, some (some ⟨some "file:///home/x/a.txt", some []⟩), []⟩ ?_ "x" ⟨"x", []⟩
      (by decide)
  intro d es hd hes
  simp only [Option.some.injEq] at hd
  subst hd
  simp only [Option.some.injEq] at hes
  subst hes
  rfl

/-! ## Claims C5 and C4 -/

/-- C5: every RecoverableFile in a built HistoryIndex — as created and after
every merge — satisfies the invariant `fileOk`: its version list is non-empty,
sorted non-increasingly by timestamp (index 0 newest), and its
`latestTimestamp` equals `versions[0].timestamp`. -/
theorem C5_file_invariants (w : Bool) (hp : String) (fs : HistoryFS) (se : Bool) :
    indexOk (scanPure w hp fs se) := by
  unfold scanPure
  split
  · exact indexOk_nil
  · split
    · exact indexOk_nil
    · exact indexOk_foldl _ _ _ _ _ indexOk_nil

/-- C5 witness: the invariant read off a concretely built index (one folder,
two surviving versions, merged newest-first with `latestTimestamp = 200`). -/
theorem C5_witness :
    fileOk ⟨"home/x/a.txt", [⟨"/hist/A/v2", 200, "A"⟩, ⟨"/hist/A/v1", 100, "A"⟩], 200⟩ := by
  have h := C5_file_invariants false "/hist"
    ⟨true, some [⟨"A", true, some (some ⟨some "file:///home/x/a.txt",
      some [⟨some "v1", some 100⟩, ⟨some "v2", some 200⟩]⟩), [("v1", 5), ("v2", 7)]⟩]⟩ false
  exact h ("x", ⟨"x", [("home/x/a.txt",
      ⟨"home/x/a.txt", [⟨"/hist/A/v2", 200, "A"⟩, ⟨"/hist/A/v1", 100, "A"⟩], 200⟩)]⟩)
    (by decide)
    ("home/x/a.txt", ⟨"home/x/a.txt",
      [⟨"/hist/A/v2", 200, "A"⟩, ⟨"/hist/A/v1", 100, "A"⟩], 200⟩) (by decide)

/-- C4: two snapshot folders whose manifests reference the same decoded
original path produce one RecoverableFile for that path: the built index holds
a single project with a single file, its versions a permutation of the union
(concatenation) of both folders' surviving version records sorted
non-increasingly by timestamp, and its `latestTimestamp` the maximum timestamp
across both folders' surviving records (bounding every record and attained by
one). -/
theorem C4_merge_two_folders (w : Bool) (hp : String) (se : Bool)
    (f1 f2 : HistFolder) (d1 d2 : Manifest) (r1 r2 p : String)
    (e1 e2 : List ManifestEntry)
    (h1dir : f1.isDir = true) (h1man : f1.manifest = some (some d1))
    (h1res : d1.resource = some r1) (h1r : r1 ≠ "")
    (h1dec : decodePath w r1 = some p) (h1es : d1.entries = some e1)
    (h1ne : survivingVersions w hp f1 se e1 ≠ [])
    (h2dir : f2.isDir = true) (h2man : f2.manifest = some (some d2))
    (h2res : d2.resource = some r2) (h2r : r2 ≠ "")
    (h2dec : decodePath w r2 = some p) (h2es : d2.entries = some e2)
    (h2ne : survivingVersions w hp f2 se e2 ≠ []) :
    ∃ F : RecoverableFile,
      scanPure w hp ⟨true, some [f1, f2]⟩ se =
        [(extractProjectName p, ⟨extractProjectName p, [(p, F)]⟩)] ∧
      F.versions.Perm
        (survivingVersions w hp f1 se e1 ++ survivingVersions w hp f2 se e2) ∧
      List.Sorted tsGE F.versions ∧
      (∀ v ∈ survivingVersions w hp f1 se e1 ++ survivingVersions w hp f2 se e2,
        v.timestamp ≤ F.latestTimestamp) ∧
      (∃ v ∈ survivingVersions w hp f1 se e1 ++ survivingVersions w hp f2 se e2,
        v.timestamp = F.latestTimestamp) := by
  have hstep : scanPure w hp ⟨true, some [f1, f2]⟩ se =
      [(extractProjectName p, ⟨extractProjectName p,
        [(p, ⟨p,
          sortVersionsDesc (sortVersionsDesc (survivingVersions w hp f1 se e1)
            ++ sortVersionsDesc (survivingVersions w hp f2 se e2)),
          headTimestamp (sortVersionsDesc (sortVersionsDesc (survivingVersions w hp f1 se e1)
            ++ sortVersionsDesc (survivingVersions w hp f2 se e2)))⟩)]⟩)] := by
    have hfold : scanPure w hp ⟨true, some [f1, f2]⟩ se
        = processFolder w hp se (processFolder w hp se [] f1) f2 := by
      simp [scanPure]
    rw [hfold,
      processFolder_of_yields w hp se [] f1 d1 r1 p e1
        h1dir h1man h1res h1r h1dec h1es h1ne,
      processFolder_of_yields w hp se _ f2 d2 r2 p e2
        h2dir h2man h2res h2r h2dec h2es h2ne]
    simp [ensureProject, addToProject, mapGet, mapSet]
  have hperm :
      (sortVersionsDesc (sortVersionsDesc (survivingVersions w hp f1 se e1)
        ++ sortVersionsDesc (survivingVersions w hp f2 se e2))).Perm
        (survivingVersions w hp f1 se e1 ++ survivingVersions w hp f2 se e2) :=
    (perm_sortVersionsDesc _).trans
      (List.Perm.append (perm_sortVersionsDesc _) (perm_sortVersionsDesc _))
  have hsorted := sorted_sortVersionsDesc
    (sortVersionsDesc (survivingVersions w hp f1 se e1)
      ++ sortVersionsDesc (survivingVersions w hp f2 se e2))
  have hne : sortVersionsDesc (sortVersionsDesc (survivingVersions w hp f1 se e1)
      ++ sortVersionsDesc (survivingVersions w hp f2 se e2)) ≠ [] := by
    intro hc
    apply h1ne
    have hlen := hperm.length_eq
    rw [hc, List.length_nil, List.length_append] at hlen
    exact List.length_eq_zero.mp (by omega)
  have hmax := headTimestamp_max _ hne hsorted
  refine ⟨⟨p,
      sortVersionsDesc (sortVersionsDesc (survivingVersions w hp f1 se e1)
        ++ sortVersionsDesc (survivingVersions w hp f2 se e2)),
      headTimestamp (sortVersionsDesc (sortVersionsDesc (survivingVersions w hp f1 se e1)
        ++ sortVersionsDesc (survivingVersions w hp f2 se e2)))⟩,
    hstep, hperm, hsorted, ?_, ?_⟩
  · intro v hv
    exact hmax.1 v (hperm.mem_iff.mpr hv)
  · obtain ⟨v, hvM, hveq⟩ := hmax.2
    exact ⟨v, hperm.mem_iff.mp hvM, hveq⟩

/-- The first of two concrete folders tracking `file:///home/x/a.txt`, for the
C4 witness. -/
def folderA : HistFolder :=
  ⟨"A", true, some (some ⟨some "file:///home/x/a.txt", some [⟨some "v1", some 100⟩]⟩),
   [("v1", 5)]⟩

/-- The second concrete folder tracking the same original path. -/
def folderB : HistFolder :=
  ⟨"B", true, some (some ⟨some "file:///home/x/a.txt", some [⟨some "v2", some 200⟩]⟩),
   [("v2", 7)]⟩

/-- C4 witness: the merge of the two concrete folders `folderA` and `folderB`
tracking the same original path `home/x/a.txt`. -/
theorem C4_witness :
    ∃ F : RecoverableFile,
      scanPure false "/hist" ⟨true, some [folderA, folderB]⟩ false =
        [(extractProjectName "home/x/a.txt",
          ⟨extractProjectName "home/x/a.txt", [("home/x/a.txt", F)]⟩)] ∧
      F.versions.Perm
        (survivingVersions false "/hist" folderA false [⟨some "v1", some 100⟩]
          ++ survivingVersions false "/hist" folderB false [⟨some "v2", some 200⟩]) ∧
      List.Sorted tsGE F.versions ∧
      (∀ v ∈ survivingVersions false "/hist" folderA false [⟨some "v1", some 100⟩]
          ++ survivingVersions false "/hist" folderB false [⟨some "v2", some 200⟩],
        v.timestamp ≤ F.latestTimestamp) ∧
      (∃ v ∈ survivingVersions false "/hist" folderA false [⟨some "v1", some 100⟩]
          ++ survivingVersions false "/hist" folderB false [⟨some "v2", some 200⟩],
        v.timestamp = F.latestTimestamp) :=
  C4_merge_two_folders false "/hist" false folderA folderB
    ⟨some "file:///home/x/a.txt", some [⟨some "v1", some 100⟩]⟩
    ⟨some "file:///home/x/a.txt", some [⟨some "v2", some 200⟩]⟩
    "file:///home/x/a.txt" "file:///home/x/a.txt" "home/x/a.txt"
    [⟨some "v1", some 100⟩] [⟨some "v2", some 200⟩]
    rfl rfl rfl (by decide) (by decide) rfl (by decide)
    rfl rfl rfl (by decide) (by decide) rfl (by decide)

end VibeCheck
